import Mathlib

/-!
Shallow embedding of `src/main.rs` of the logalizer repository.

The program reads a newline-delimited log file, decodes every line as a JSON
object with a required string field `type` (`struct Log` with
`serde_json::from_str::<Log>`), and folds the lines into a `TypeTable`:
a map from type key to `TypeData` (`num_instances`, `total_byte_size`)
plus a `lines_excluded` vector of `ExcludedLine` records.

Modelling choices:
* Rust `String`s are Lean `String`s; `str.len()` (the UTF-8 byte count) is
  `byteLen`, the sum of `Char.utf8Size` over the characters.
* `serde_json::from_str::<Log>` is modelled by a JSON parser over `List Char`
  (`parseValue` and friends, fuel-indexed) followed by the field extraction
  that serde's derived deserializer performs for `struct Log`: the value must
  be an object, the field `type` must be present exactly once, and its value
  must be a JSON string; every other field is skipped.  Error strings are
  descriptive but do not reproduce serde's exact wording (the spec fixes no
  wording).
* `HashMap<String, TypeData>` is modelled as an association list
  `List (String × TypeData)` with first-match lookup; `get_mut` updates the
  matching entry in place and `insert` appends a fresh entry.  Only the
  key-to-value mapping (`List.lookup`) is observable in the claims, matching
  a hash map's contract.
* `BufReader::lines()` is modelled in two layers: `fileLines` splits file
  contents into lines (dropping each `'\n'` terminator and a `'\r'`
  immediately before it, exactly as `std::io::Lines` does), and the
  per-line `io::Result` from the iterator is a `List (Except String String)`
  consumed by `processReads` (the `try_for_each` loop, which aborts on the
  first read error via the `?` operator).
* `File::open` plus the line iterator is a `Except String (List (Except String String))`:
  either an open error, or the list of per-line read results.
* `main` is modelled as a function from the program name, the remaining
  argument vector, a file system (mapping a path to an open result) and the
  measured elapsed microseconds, to the list of output events it prints.
-/

/-- Byte length of a character sequence in UTF-8, modelling Rust's
`String::len` which counts bytes. -/
def utf8Len (l : List Char) : Nat := (l.map Char.utf8Size).sum

/-- Byte length of a string, modelling `line.len()` in `main.rs`. -/
def byteLen (s : String) : Nat := utf8Len s.data

/-- The opening-brace character, `'\x7b'`. -/
def lbrace : Char := Char.ofNat 123

/-- The closing-brace character, `'\x7d'`. -/
def rbrace : Char := Char.ofNat 125

/-- JSON values, the data model of `serde_json`.  Numbers keep their raw
lexeme: the program never looks at a numeric value, only at whether the
text is valid JSON. -/
inductive Json where
  | null : Json
  | bool (b : Bool) : Json
  | num (raw : String) : Json
  | str (s : String) : Json
  | arr (elems : List Json) : Json
  | obj (members : List (String × Json)) : Json

/-- JSON insignificant whitespace: space, tab, line feed, carriage return. -/
def isJsonWs (c : Char) : Bool := c = ' ' || c = '\t' || c = '\n' || c = '\r'

/-- Drop leading JSON whitespace. -/
def skipWs : List Char → List Char
  | [] => []
  | c :: cs => if isJsonWs c then skipWs cs else c :: cs

/-- Value of a hexadecimal digit, if the character is one. -/
def hexVal? (c : Char) : Option Nat :=
  if '0' ≤ c ∧ c ≤ '9' then some (c.toNat - '0'.toNat)
  else if 'a' ≤ c ∧ c ≤ 'f' then some (c.toNat - 'a'.toNat + 10)
  else if 'A' ≤ c ∧ c ≤ 'F' then some (c.toNat - 'A'.toNat + 10)
  else none

/-- Combine four hex digit values into a code unit. -/
def hex4 (a b c d : Nat) : Nat := ((a * 16 + b) * 16 + c) * 16 + d

/-- Parse the body of a JSON string after the opening quote, accumulating
decoded characters in reverse.  Handles the JSON escapes, including
`\uXXXX` with surrogate pairs; rejects unescaped control characters, as
`serde_json` does. -/
def parseStringBody (acc : List Char) : List Char → Except String (String × List Char)
  | [] => Except.error "unterminated string"
  | '"' :: rest => Except.ok (⟨acc.reverse⟩, rest)
  | '\\' :: '"' :: rest => parseStringBody ('"' :: acc) rest
  | '\\' :: '\\' :: rest => parseStringBody ('\\' :: acc) rest
  | '\\' :: '/' :: rest => parseStringBody ('/' :: acc) rest
  | '\\' :: 'b' :: rest => parseStringBody ('\x08' :: acc) rest
  | '\\' :: 'f' :: rest => parseStringBody ('\x0c' :: acc) rest
  | '\\' :: 'n' :: rest => parseStringBody ('\n' :: acc) rest
  | '\\' :: 'r' :: rest => parseStringBody ('\r' :: acc) rest
  | '\\' :: 't' :: rest => parseStringBody ('\t' :: acc) rest
  | '\\' :: 'u' :: c1 :: c2 :: c3 :: c4 :: rest =>
    match hexVal? c1, hexVal? c2, hexVal? c3, hexVal? c4 with
    | some a, some b, some c, some d =>
      let n := hex4 a b c d
      if 0xD800 ≤ n ∧ n ≤ 0xDBFF then
        match rest with
        | '\\' :: 'u' :: d1 :: d2 :: d3 :: d4 :: rest2 =>
          match hexVal? d1, hexVal? d2, hexVal? d3, hexVal? d4 with
          | some a2, some b2, some c2, some d2 =>
            let m := hex4 a2 b2 c2 d2
            if 0xDC00 ≤ m ∧ m ≤ 0xDFFF then
              parseStringBody
                (Char.ofNat (0x10000 + (n - 0xD800) * 0x400 + (m - 0xDC00)) :: acc) rest2
            else Except.error "unexpected low surrogate"
          | _, _, _, _ => Except.error "invalid hex escape"
        | _ => Except.error "unpaired high surrogate"
      else if 0xDC00 ≤ n ∧ n ≤ 0xDFFF then Except.error "lone low surrogate"
      else parseStringBody (Char.ofNat n :: acc) rest
    | _, _, _, _ => Except.error "invalid hex escape"
  | '\\' :: _ :: _ => Except.error "invalid escape"
  | '\\' :: [] => Except.error "unterminated string"
  | c :: rest =>
    if c.toNat < 0x20 then Except.error "control character in string"
    else parseStringBody (c :: acc) rest

/-- Parse the optional fraction part of a JSON number, appending its lexeme. -/
def parseFracPart (acc : List Char) (cs : List Char) : Except String (List Char × List Char) :=
  match cs with
  | '.' :: r =>
    let ds := r.takeWhile Char.isDigit
    if ds.isEmpty then Except.error "invalid number"
    else Except.ok (acc ++ '.' :: ds, r.dropWhile Char.isDigit)
  | _ => Except.ok (acc, cs)

/-- Parse the optional exponent part of a JSON number, appending its lexeme. -/
def parseExpPart (acc : List Char) (cs : List Char) : Except String (List Char × List Char) :=
  match cs with
  | c :: r =>
    if c = 'e' ∨ c = 'E' then
      let sr := match r with
        | s :: r2 => if s = '+' ∨ s = '-' then ([s], r2) else (([] : List Char), r)
        | [] => ([], r)
      let ds := sr.2.takeWhile Char.isDigit
      if ds.isEmpty then Except.error "invalid number"
      else Except.ok (acc ++ c :: (sr.1 ++ ds), sr.2.dropWhile Char.isDigit)
    else Except.ok (acc, cs)
  | [] => Except.ok (acc, cs)

/-- Parse a JSON number lexeme (grammar `-? (0 | [1-9][0-9]*) frac? exp?`),
returning its raw text. -/
def parseNumber (cs : List Char) : Except String (String × List Char) :=
  let sr := match cs with
    | '-' :: r => (['-'], r)
    | _ => (([] : List Char), cs)
  match sr.2 with
  | '0' :: r =>
    match parseFracPart (sr.1 ++ ['0']) r with
    | Except.error e => Except.error e
    | Except.ok (acc2, r2) =>
      match parseExpPart acc2 r2 with
      | Except.error e => Except.error e
      | Except.ok (acc3, r3) => Except.ok (⟨acc3⟩, r3)
  | c :: r =>
    if c.isDigit then
      let ds := r.takeWhile Char.isDigit
      match parseFracPart (sr.1 ++ c :: ds) (r.dropWhile Char.isDigit) with
      | Except.error e => Except.error e
      | Except.ok (acc2, r2) =>
        match parseExpPart acc2 r2 with
        | Except.error e => Except.error e
        | Except.ok (acc3, r3) => Except.ok (⟨acc3⟩, r3)
    else Except.error "invalid number"
  | [] => Except.error "invalid number"

mutual

/-- Parse one JSON value (fuel-indexed recursive descent, modelling
`serde_json`'s parser).  Returns the value and the unconsumed input. -/
def parseValue : Nat → List Char → Except String (Json × List Char)
  | 0, _ => Except.error "recursion limit exceeded"
  | fuel + 1, cs =>
    match skipWs cs with
    | [] => Except.error "unexpected end of input"
    | '"' :: rest =>
      match parseStringBody [] rest with
      | Except.error e => Except.error e
      | Except.ok (s, rest2) => Except.ok (Json.str s, rest2)
    | '[' :: rest =>
      match skipWs rest with
      | ']' :: rest2 => Except.ok (Json.arr [], rest2)
      | _ => parseElems fuel [] rest
    | 't' :: 'r' :: 'u' :: 'e' :: rest => Except.ok (Json.bool true, rest)
    | 'f' :: 'a' :: 'l' :: 's' :: 'e' :: rest => Except.ok (Json.bool false, rest)
    | 'n' :: 'u' :: 'l' :: 'l' :: rest => Except.ok (Json.null, rest)
    | c :: rest =>
      if c = lbrace then
        match skipWs rest with
        | [] => Except.error "unexpected end of input"
        | d :: rest2 =>
          if d = rbrace then Except.ok (Json.obj [], rest2)
          else parseMembers fuel [] rest
      else if c = '-' ∨ c.isDigit then
        match parseNumber (c :: rest) with
        | Except.error e => Except.error e
        | Except.ok (raw, rest2) => Except.ok (Json.num raw, rest2)
      else Except.error "expected value"

/-- Parse the elements of a non-empty JSON array, accumulating in reverse. -/
def parseElems : Nat → List Json → List Char → Except String (Json × List Char)
  | 0, _, _ => Except.error "recursion limit exceeded"
  | fuel + 1, acc, cs =>
    match parseValue fuel cs with
    | Except.error e => Except.error e
    | Except.ok (v, rest) =>
      match skipWs rest with
      | ',' :: rest2 => parseElems fuel (v :: acc) rest2
      | ']' :: rest2 => Except.ok (Json.arr (v :: acc).reverse, rest2)
      | _ => Except.error "expected comma or bracket"

/-- Parse the members of a non-empty JSON object, accumulating in reverse. -/
def parseMembers : Nat → List (String × Json) → List Char → Except String (Json × List Char)
  | 0, _, _ => Except.error "recursion limit exceeded"
  | fuel + 1, acc, cs =>
    match skipWs cs with
    | '"' :: rest =>
      match parseStringBody [] rest with
      | Except.error e => Except.error e
      | Except.ok (k, r1) =>
        match skipWs r1 with
        | ':' :: r2 =>
          match parseValue fuel r2 with
          | Except.error e => Except.error e
          | Except.ok (v, r3) =>
            match skipWs r3 with
            | [] => Except.error "unexpected end of input"
            | c :: r4 =>
              if c = ',' then parseMembers fuel ((k, v) :: acc) r4
              else if c = rbrace then Except.ok (Json.obj ((k, v) :: acc).reverse, r4)
              else Except.error "expected comma or brace"
        | _ => Except.error "expected colon"
    | _ => Except.error "expected object key"

end

/-- Parse a whole string as one JSON value, requiring only whitespace after
it, as `serde_json::from_str` does. -/
def parseJson (s : String) : Except String Json :=
  match parseValue (s.data.length + 1) s.data with
  | Except.error e => Except.error e
  | Except.ok (v, rest) =>
    match skipWs rest with
    | [] => Except.ok v
    | _ :: _ => Except.error "trailing characters"

/-- The deserialization target of `main.rs`:
`struct Log { #[serde(rename = "type")] log_type: String }`. -/
structure Log where
  log_type : String
deriving DecidableEq

/-- Walk an object's members looking for the field `type`, as serde's derived
deserializer for `Log` does: other fields are skipped, a duplicate `type`
field is an error, a non-string `type` value is an error, a missing `type`
field is an error. -/
def findLogType (found : Option String) : List (String × Json) → Except String String
  | [] =>
    match found with
    | some t => Except.ok t
    | none => Except.error "missing field type"
  | (k, v) :: rest =>
    if k = "type" then
      match found with
      | some _ => Except.error "duplicate field type"
      | none =>
        match v with
        | Json.str t => findLogType (some t) rest
        | _ => Except.error "invalid type: expected a string for field type"
    else findLogType found rest

/-- Model of `serde_json::from_str::<Log>(&line)`: parse the line as JSON,
require a JSON object, and extract its `type` field. -/
def fromStr (s : String) : Except String Log :=
  match parseJson s with
  | Except.error e => Except.error e
  | Except.ok (Json.obj members) =>
    match findLogType none members with
    | Except.error e => Except.error e
    | Except.ok t => Except.ok ⟨t⟩
  | Except.ok _ => Except.error "invalid type: expected struct Log"

/-- `struct TypeData` of `main.rs`. -/
structure TypeData where
  total_byte_size : Nat
  num_instances : Nat
deriving DecidableEq

/-- `struct ExcludedLine` of `main.rs`. -/
structure ExcludedLine where
  index : Nat
  error : String
deriving DecidableEq

/-- `struct TypeTable` of `main.rs`; the `HashMap` is modelled as an
association list observed through `List.lookup`. -/
structure TypeTable where
  types : List (String × TypeData)
  lines_excluded : List ExcludedLine
deriving DecidableEq

/-- `TypeTable::default()`: empty map, empty exclusion vector. -/
def TypeTable.default : TypeTable := ⟨[], []⟩

/-- The `Ok` branch of the loop body in `TypeTable::from_file`: if the type
key is present, bump `num_instances` by one and `total_byte_size` by the
line's byte length; otherwise insert `TypeData { num_instances: 1,
total_byte_size: line.len() }`. -/
def insertOrUpdate (key : String) (len : Nat) : List (String × TypeData) → List (String × TypeData)
  | [] => [(key, ⟨len, 1⟩)]
  | (k, d) :: rest =>
    if k = key then (k, ⟨d.total_byte_size + len, d.num_instances + 1⟩) :: rest
    else (k, d) :: insertOrUpdate key len rest

/-- One iteration of the loop in `TypeTable::from_file`, for the line with
0-based index `i`: classify on decode success, push an `ExcludedLine`
carrying the index and the error text on decode failure. -/
def processLine (i : Nat) (line : String) (tt : TypeTable) : TypeTable :=
  match fromStr line with
  | Except.ok log => { tt with types := insertOrUpdate log.log_type (byteLen line) tt.types }
  | Except.error err => { tt with lines_excluded := tt.lines_excluded ++ [⟨i, err⟩] }

/-- The loop of `TypeTable::from_file` over successfully read lines,
starting at index `i`. -/
def processLines (i : Nat) (lines : List String) (tt : TypeTable) : TypeTable :=
  match lines with
  | [] => tt
  | l :: rest => processLines (i + 1) rest (processLine i l tt)

/-- `try_for_each` over the raw read results, starting at index `i`: a read
error aborts the whole pass via the `?` operator, a read line is processed. -/
def processReads (i : Nat) (reads : List (Except String String)) (tt : TypeTable) :
    Except String TypeTable :=
  match reads with
  | [] => Except.ok tt
  | Except.error e :: _ => Except.error e
  | Except.ok line :: rest => processReads (i + 1) rest (processLine i line tt)

/-- `TypeTable::from_file` given the outcome of `File::open` and of the
per-line reads: an open failure propagates, otherwise the enumerated loop
runs from an empty table. -/
def TypeTable.fromFile (openResult : Except String (List (Except String String))) :
    Except String TypeTable :=
  match openResult with
  | Except.error e => Except.error e
  | Except.ok reads => processReads 0 reads TypeTable.default

/-- The pure core of `TypeTable::from_file`: the pass over a list of lines
that were all read successfully. -/
def TypeTable.fromLines (lines : List String) : TypeTable :=
  processLines 0 lines TypeTable.default

/-- Drop one trailing carriage return, the second half of the terminator
stripping done by `std::io::Lines`. -/
def stripCR (l : List Char) : List Char :=
  if l.getLast? = some '\r' then l.dropLast else l

/-- Worker for `fileLines`: accumulate the current line in reverse; at a
`'\n'` emit the line with its terminator (`'\n'` and a `'\r'` just before
it) stripped; at end of input emit a final unterminated line unless empty. -/
def fileLinesGo (acc : List Char) : List Char → List (List Char)
  | [] => if acc.isEmpty then [] else [acc.reverse]
  | c :: cs =>
    if c = '\n' then stripCR acc.reverse :: fileLinesGo [] cs
    else fileLinesGo (c :: acc) cs

/-- Model of `BufReader::lines()` on full file contents: the list of lines
with terminators stripped. -/
def fileLines (cs : List Char) : List (List Char) := fileLinesGo [] cs

/-- The whole engine on raw file contents: split into lines, then aggregate. -/
def TypeTable.fromFileContents (contents : String) : TypeTable :=
  TypeTable.fromLines ((fileLines contents.data).map (fun l => ⟨l⟩))

/-- Output events printed by `main`: the rendered table, a `println!` line,
or a final `print!` without newline. -/
inductive OutEvent where
  | renderTable (tt : TypeTable) : OutEvent
  | println (s : String) : OutEvent
  | printStr (s : String) : OutEvent
deriving DecidableEq

/-- The message `println!("Error reading file {}: {}", path, err)`. -/
def errorReadingMsg (path err : String) : String :=
  "Error reading file " ++ path ++ ": " ++ err

/-- The last component of the program path, modelling
`Path::new(&args[0]).iter().last()` on Unix paths. -/
def exeName (arg0 : String) : String :=
  ((arg0.splitOn "/").filter (fun s => ¬s.isEmpty)).getLastD arg0

/-- The usage message printed when no input argument is given. -/
def usageMsg (exe : String) : String :=
  "No input provided as an argument. Expected usage is: \"" ++ exe ++ " [filename]\""

/-- The header line printed before the excluded-line listing. -/
def excludedHeader : String := "The following lines were excluded because of errors:"

/-- One line of the excluded-line listing:
`println!("- line {}: {}", excluded.index + 1, excluded.error)`. -/
def excludedLineMsg (e : ExcludedLine) : String :=
  "- line " ++ toString (e.index + 1) ++ ": " ++ e.error

/-- The completion message, with the measured elapsed time substituted. -/
def completionMsg (micros : Nat) : String :=
  "Task succesfully completed in " ++ toString micros ++ " microseconds"

/-- Model of `fn main`: `arg0` is `args[0]`, `argv` the remaining arguments
(`input_arg = args.get(1)` is `argv.head?`), `fs` maps a path to the outcome
of opening and reading it, and `elapsedMicros` is the measured duration.
Returns the sequence of output events printed to stdout. -/
def mainRun (arg0 : String) (argv : List String)
    (fs : String → Except String (List (Except String String)))
    (elapsedMicros : Nat) : List OutEvent :=
  match argv.head? with
  | some path =>
    match TypeTable.fromFile (fs path) with
    | Except.ok tt =>
      OutEvent.renderTable tt ::
        ((if tt.lines_excluded.isEmpty then []
          else OutEvent.println excludedHeader ::
            tt.lines_excluded.map (fun e => OutEvent.println (excludedLineMsg e))) ++
         [OutEvent.printStr (completionMsg elapsedMicros)])
    | Except.error err => [OutEvent.println (errorReadingMsg path err)]
  | none => [OutEvent.println (usageMsg (exeName arg0))]

/-- Whether a line decodes successfully (the `Ok` arm of the loop). -/
def okDecode (line : String) : Bool :=
  match fromStr line with
  | Except.ok _ => true
  | Except.error _ => false

/-- Whether a line decodes to a record whose `type` field equals `key`. -/
def decodesTo (line key : String) : Bool :=
  match fromStr line with
  | Except.ok log => log.log_type == key
  | Except.error _ => false

/-- Specification of the exclusion list produced by the pass starting at
index `i`: one record per decode failure, in input order. -/
def excludedSpec (i : Nat) : List String → List ExcludedLine
  | [] => []
  | l :: rest =>
    match fromStr l with
    | Except.error e => ⟨i, e⟩ :: excludedSpec (i + 1) rest
    | Except.ok _ => excludedSpec (i + 1) rest

/-- Total number of classified instances across all type keys of a table. -/
def instSum (ts : List (String × TypeData)) : Nat :=
  (ts.map (fun kv => kv.2.num_instances)).sum

theorem processLine_types (i : Nat) (line : String) (tt : TypeTable) :
    (processLine i line tt).types =
      match fromStr line with
      | Except.ok log => insertOrUpdate log.log_type (byteLen line) tt.types
      | Except.error _ => tt.types := by
  unfold processLine
  cases fromStr line <;> simp

theorem processLine_lines_excluded (i : Nat) (line : String) (tt : TypeTable) :
    (processLine i line tt).lines_excluded =
      tt.lines_excluded ++
        (match fromStr line with
         | Except.error e => [⟨i, e⟩]
         | Except.ok _ => []) := by
  unfold processLine
  cases fromStr line <;> simp

theorem processLines_lines_excluded (lines : List String) (i : Nat) (tt : TypeTable) :
    (processLines i lines tt).lines_excluded = tt.lines_excluded ++ excludedSpec i lines := by
  induction lines generalizing i tt with
  | nil => simp [processLines, excludedSpec]
  | cons l rest ih =>
    unfold processLines excludedSpec
    rw [ih]
    cases h : fromStr l <;> simp [processLine, h]

theorem lookup_insertOrUpdate (k key : String) (len : Nat) (ts : List (String × TypeData)) :
    List.lookup k (insertOrUpdate key len ts) =
      if k = key then
        match List.lookup k ts with
        | some d => some ⟨d.total_byte_size + len, d.num_instances + 1⟩
        | none => some ⟨len, 1⟩
      else List.lookup k ts := by
  induction ts with
  | nil =>
    by_cases h : k = key
    · simp [insertOrUpdate, List.lookup, h]
    · simp [insertOrUpdate, List.lookup, h, beq_eq_false_iff_ne.mpr h]
  | cons kd rest ih =>
    obtain ⟨k', d⟩ := kd
    by_cases h1 : k' = key
    · subst h1
      by_cases h2 : k = k'
      · simp [insertOrUpdate, List.lookup, h2]
      · simp [insertOrUpdate, List.lookup, h2, beq_eq_false_iff_ne.mpr h2]
    · by_cases h2 : k = k'
      · subst h2
        simp [insertOrUpdate, h1, List.lookup]
      · simp [insertOrUpdate, h1, List.lookup, h2, beq_eq_false_iff_ne.mpr h2, ih]

theorem lookup_processLines (lines : List String) (i : Nat) (tt : TypeTable) (k : String) :
    List.lookup k (processLines i lines tt).types =
      match List.lookup k tt.types with
      | some d =>
        some ⟨d.total_byte_size + ((lines.filter (fun l => decodesTo l k)).map byteLen).sum,
              d.num_instances + lines.countP (fun l => decodesTo l k)⟩
      | none =>
        if lines.countP (fun l => decodesTo l k) = 0 then none
        else some ⟨((lines.filter (fun l => decodesTo l k)).map byteLen).sum,
                   lines.countP (fun l => decodesTo l k)⟩ := by
  induction lines generalizing i tt with
  | nil =>
    cases h : List.lookup k tt.types <;> simp [processLines, h]
  | cons l rest ih =>
    unfold processLines
    rw [ih]
    cases hf : fromStr l with
    | error e =>
      have hd : decodesTo l k = false := by simp [decodesTo, hf]
      have htypes : (processLine i l tt).types = tt.types := by
        simp [processLine, hf]
      rw [htypes]
      cases h : List.lookup k tt.types <;>
        simp [List.countP_cons, List.filter_cons, hd]
    | ok log =>
      have htypes : (processLine i l tt).types =
          insertOrUpdate log.log_type (byteLen l) tt.types := by
        simp [processLine, hf]
      rw [htypes, lookup_insertOrUpdate]
      by_cases hk : k = log.log_type
      · have hd : decodesTo l k = true := by
          simp [decodesTo, hf, hk]
        rw [if_pos hk]
        cases h : List.lookup k tt.types with
        | some d =>
          simp [List.countP_cons, List.filter_cons, hd, TypeData.mk.injEq]
          omega
        | none =>
          have hcnt : rest.countP (fun l => decodesTo l k) + 1 ≠ 0 := by omega
          simp [List.countP_cons, List.filter_cons, hd, TypeData.mk.injEq]
          omega
      · have hd : decodesTo l k = false := by
          simp [decodesTo, hf]
          exact fun hkk => absurd hkk.symm hk
        rw [if_neg hk]
        cases h : List.lookup k tt.types <;>
          simp [List.countP_cons, List.filter_cons, hd]

theorem instSum_insertOrUpdate (key : String) (len : Nat) (ts : List (String × TypeData)) :
    instSum (insertOrUpdate key len ts) = instSum ts + 1 := by
  induction ts with
  | nil => simp [insertOrUpdate, instSum]
  | cons kd rest ih =>
    obtain ⟨k', d⟩ := kd
    by_cases h : k' = key <;> simp [insertOrUpdate, h, instSum] at ih ⊢ <;> omega

theorem instSum_processLines (lines : List String) (i : Nat) (tt : TypeTable) :
    instSum (processLines i lines tt).types = instSum tt.types + lines.countP okDecode := by
  induction lines generalizing i tt with
  | nil => simp [processLines]
  | cons l rest ih =>
    unfold processLines
    rw [ih]
    cases hf : fromStr l with
    | error e => simp [processLine, hf, okDecode, List.countP_cons]
    | ok log =>
      simp [processLine, hf, instSum_insertOrUpdate, okDecode, List.countP_cons]
      omega

theorem processReads_map_ok (lines : List String) (i : Nat) (tt : TypeTable) :
    processReads i (lines.map Except.ok) tt = Except.ok (processLines i lines tt) := by
  induction lines generalizing i tt with
  | nil => simp [processReads, processLines]
  | cons l rest ih => simp [processReads, processLines, ih]

theorem processReads_error_of_mem (reads : List (Except String String)) (e : String)
    (i : Nat) (tt : TypeTable) :
    Except.error e ∈ reads → ∃ e', processReads i reads tt = Except.error e' := by
  induction reads generalizing i tt with
  | nil => intro h; cases h
  | cons r rest ih =>
    intro h
    cases r with
    | error e2 => exact ⟨e2, rfl⟩
    | ok line =>
      have hmem : Except.error e ∈ rest := by
        rcases List.mem_cons.mp h with h1 | h2
        · cases h1
        · exact h2
      exact ih (i + 1) (processLine i line tt) hmem

theorem excludedSpec_index_ge (lines : List String) (i : Nat) :
    ∀ r ∈ excludedSpec i lines, i ≤ r.index := by
  induction lines generalizing i with
  | nil => simp [excludedSpec]
  | cons l rest ih =>
    unfold excludedSpec
    cases hf : fromStr l with
    | error e =>
      intro r hr
      rcases List.mem_cons.mp hr with rfl | hr2
      · simp
      · exact Nat.le_trans (by omega) (ih (i + 1) r hr2)
    | ok log =>
      intro r hr
      exact Nat.le_trans (by omega) (ih (i + 1) r hr)

theorem excludedSpec_pairwise (lines : List String) (i : Nat) :
    (excludedSpec i lines).Pairwise (fun a b => a.index < b.index) := by
  induction lines generalizing i with
  | nil => simp [excludedSpec]
  | cons l rest ih =>
    unfold excludedSpec
    cases hf : fromStr l with
    | error e =>
      refine List.Pairwise.cons ?_ (ih (i + 1))
      intro r hr
      have := excludedSpec_index_ge rest (i + 1) r hr
      simp
      omega
    | ok log => exact ih (i + 1)

theorem excludedSpec_length (lines : List String) (i : Nat) :
    (excludedSpec i lines).length = lines.countP (fun l => !okDecode l) := by
  induction lines generalizing i with
  | nil => simp [excludedSpec]
  | cons l rest ih =>
    unfold excludedSpec
    cases hf : fromStr l <;> simp [List.countP_cons, okDecode, hf, ih]

theorem excludedSpec_countP_index (lines : List String) (i p : Nat) (hp : p < lines.length) :
    (excludedSpec i lines).countP (fun r => r.index == i + p) =
      if okDecode lines[p] then 0 else 1 := by
  induction lines generalizing i p with
  | nil => simp at hp
  | cons l rest ih =>
    have hz : ∀ j, j < i + 1 →
        (excludedSpec (i + 1) rest).countP (fun r => r.index == j) = 0 := by
      intro j hj
      refine List.countP_eq_zero.mpr ?_
      intro r hr
      have := excludedSpec_index_ge rest (i + 1) r hr
      simp
      omega
    cases p with
    | zero =>
      unfold excludedSpec
      cases hf : fromStr l with
      | error e =>
        simp [List.countP_cons, okDecode, hf, hz i (by omega)]
      | ok log =>
        simp [okDecode, hf, hz i (by omega)]
    | succ p2 =>
      have hp2 : p2 < rest.length := by simpa using hp
      have harith : i + (p2 + 1) = (i + 1) + p2 := by omega
      unfold excludedSpec
      cases hf : fromStr l with
      | error e =>
        have hhead : ((⟨i, e⟩ : ExcludedLine).index == i + (p2 + 1)) = false := by
          simp
        simp only [List.countP_cons, hhead, List.getElem_cons_succ, harith,
          ih (i + 1) p2 hp2]
        simp
        omega
      | ok log =>
        simp only [List.getElem_cons_succ, harith, ih (i + 1) p2 hp2]

theorem excludedSpec_mem (lines : List String) (i p : Nat) (hp : p < lines.length)
    (e : String) (hf : fromStr lines[p] = Except.error e) :
    (⟨i + p, e⟩ : ExcludedLine) ∈ excludedSpec i lines := by
  induction lines generalizing i p with
  | nil => simp at hp
  | cons l rest ih =>
    cases p with
    | zero =>
      have hf0 : fromStr l = Except.error e := by simpa using hf
      unfold excludedSpec
      rw [hf0]
      simp
    | succ p2 =>
      have hp2 : p2 < rest.length := by simpa using hp
      have hf2 : fromStr rest[p2] = Except.error e := by simpa using hf
      have harith : i + (p2 + 1) = (i + 1) + p2 := by omega
      unfold excludedSpec
      rw [harith]
      cases hg : fromStr l with
      | error e2 => exact List.mem_cons_of_mem _ (ih (i + 1) p2 hp2 hf2)
      | ok log => exact ih (i + 1) p2 hp2 hf2

theorem findLogType_some_of_no_type (post : List (String × Json)) (t : String)
    (hpost : ∀ kv ∈ post, kv.1 ≠ "type") :
    findLogType (some t) post = Except.ok t := by
  induction post with
  | nil => rfl
  | cons kv rest ih =>
    obtain ⟨k, v⟩ := kv
    have hk : k ≠ "type" := hpost (k, v) (List.mem_cons_self _ _)
    unfold findLogType
    rw [if_neg hk]
    exact ih (fun kv h => hpost kv (List.mem_cons_of_mem _ h))

theorem findLogType_append (pre post : List (String × Json)) (t : String)
    (hpre : ∀ kv ∈ pre, kv.1 ≠ "type") (hpost : ∀ kv ∈ post, kv.1 ≠ "type") :
    findLogType none (pre ++ ("type", Json.str t) :: post) = Except.ok t := by
  induction pre with
  | nil =>
    simp only [List.nil_append]
    unfold findLogType
    rw [if_pos rfl]
    exact findLogType_some_of_no_type post t hpost
  | cons kv rest ih =>
    obtain ⟨k, v⟩ := kv
    have hk : k ≠ "type" := hpre (k, v) (List.mem_cons_self _ _)
    simp only [List.cons_append]
    unfold findLogType
    rw [if_neg hk]
    exact ih (fun kv h => hpre kv (List.mem_cons_of_mem _ h))

theorem fileLinesGo_append (line : List Char) (rest : List Char) (acc : List Char)
    (h : '\n' ∉ line) :
    fileLinesGo acc (line ++ '\n' :: rest) =
      stripCR (acc.reverse ++ line) :: fileLinesGo [] rest := by
  induction line generalizing acc with
  | nil => simp [fileLinesGo]
  | cons c cs ih =>
    have hc : c ≠ '\n' := fun hh => h (hh ▸ List.mem_cons_self _ _)
    have hcs : '\n' ∉ cs := fun hh => h (List.mem_cons_of_mem _ hh)
    simp only [List.cons_append, fileLinesGo]
    rw [if_neg hc]
    have hrec := ih (c :: acc) hcs
    simp only [List.append_eq] at hrec ⊢
    rw [hrec]
    simp

theorem utf8Len_stripCR (l : List Char) :
    utf8Len (stripCR l) + (if l.getLast? = some '\r' then 1 else 0) = utf8Len l := by
  unfold stripCR
  by_cases h : l.getLast? = some '\r'
  · rw [if_pos h, if_pos h]
    have hne : l ≠ [] := by
      intro hl
      rw [hl] at h
      simp at h
    have hlast : l.getLast hne = '\r' := by
      have := List.getLast?_eq_getLast l hne
      rw [this] at h
      exact Option.some_injective _ h
    conv_rhs => rw [← List.dropLast_append_getLast hne, hlast]
    simp [utf8Len]
    decide
  · rw [if_neg h, if_neg h]
    omega

/-- C1: every line index of the input contributes to exactly one of the two
outcomes of the pass: a successfully decoded line increments exactly one
`TypeData` (witnessed globally by the instance total growing by one per
decoded line) and yields no `ExcludedLine`, while a failing line yields
exactly one `ExcludedLine` with that index; the number of exclusions equals
the number of failing lines. -/
theorem claim_C1 (lines : List String) (i : Nat) (h : i < lines.length) :
    ((okDecode lines[i] = true ∧
        (TypeTable.fromLines lines).lines_excluded.countP (fun r => r.index == i) = 0) ∨
      (okDecode lines[i] = false ∧
        (TypeTable.fromLines lines).lines_excluded.countP (fun r => r.index == i) = 1)) ∧
    instSum (TypeTable.fromLines lines).types = lines.countP okDecode ∧
    (TypeTable.fromLines lines).lines_excluded.length =
      lines.countP (fun l => !okDecode l) := by
  have hexcl : (TypeTable.fromLines lines).lines_excluded = excludedSpec 0 lines := by
    rw [TypeTable.fromLines, processLines_lines_excluded]
    simp [TypeTable.default]
  have hcnt := excludedSpec_countP_index lines 0 i h
  rw [Nat.zero_add] at hcnt
  refine ⟨?_, ?_, ?_⟩
  · rw [hexcl]
    cases hok : okDecode lines[i] with
    | true =>
      left
      refine ⟨rfl, ?_⟩
      rw [hcnt, hok]
      simp
    | false =>
      right
      refine ⟨rfl, ?_⟩
      rw [hcnt, hok]
      simp
  · rw [TypeTable.fromLines, instSum_processLines]
    simp [TypeTable.default, instSum]
  · rw [hexcl, excludedSpec_length]

/-- Witness for C1: in a concrete two-line file whose second line is not
JSON, that failing line index is excluded exactly once. -/
theorem claim_C1_wit :
    (TypeTable.fromLines ["\x7b\"type\":\"A\"\x7d", "nope"]).lines_excluded.countP
      (fun r => r.index == 1) = 1 := by
  rcases (claim_C1 ["\x7b\"type\":\"A\"\x7d", "nope"] 1 (by decide)).1 with h1 | h1
  · exact absurd h1.1 (by decide)
  · exact h1.2

/-- C2: for every type key present in the resulting map, the stored
`num_instances` equals exactly the number of lines that decode to a record
whose `type` field equals that key. -/
theorem claim_C2 (lines : List String) (key : String) (d : TypeData)
    (h : List.lookup key (TypeTable.fromLines lines).types = some d) :
    d.num_instances = lines.countP (fun l => decodesTo l key) := by
  rw [TypeTable.fromLines, lookup_processLines] at h
  have h0 : List.lookup key TypeTable.default.types = (none : Option TypeData) := rfl
  rw [h0] at h
  by_cases hc : lines.countP (fun l => decodesTo l key) = 0
  · rw [if_pos hc] at h
    cases h
  · rw [if_neg hc] at h
    have hd := Option.some_injective _ h
    rw [← hd]

/-- Witness for C2: in a concrete two-line file, the key `A` holds exactly
one instance, the number of lines decoding to `A`. -/
theorem claim_C2_wit :
    (⟨12, 1⟩ : TypeData).num_instances =
      ["\x7b\"type\":\"A\"\x7d", "nope"].countP (fun l => decodesTo l "A") :=
  claim_C2 ["\x7b\"type\":\"A\"\x7d", "nope"] "A" ⟨12, 1⟩ (by rfl)

/-- C3: for every type key present in the resulting map, the stored
`total_byte_size` equals the sum of the raw byte lengths of the lines
classified under that key. -/
theorem claim_C3 (lines : List String) (key : String) (d : TypeData)
    (h : List.lookup key (TypeTable.fromLines lines).types = some d) :
    d.total_byte_size = ((lines.filter (fun l => decodesTo l key)).map byteLen).sum := by
  rw [TypeTable.fromLines, lookup_processLines] at h
  have h0 : List.lookup key TypeTable.default.types = (none : Option TypeData) := rfl
  rw [h0] at h
  by_cases hc : lines.countP (fun l => decodesTo l key) = 0
  · rw [if_pos hc] at h
    cases h
  · rw [if_neg hc] at h
    have hd := Option.some_injective _ h
    rw [← hd]

/-- Witness for C3: in a concrete file with two `A` lines of 12 and 18 raw
bytes, the key `A` holds 30 total bytes, the sum of the two raw lengths. -/
theorem claim_C3_wit :
    (⟨30, 2⟩ : TypeData).total_byte_size =
      ((["\x7b\"type\":\"A\"\x7d", "nope", "\x7b\"x\":0,\"type\":\"A\"\x7d"].filter
          (fun l => decodesTo l "A")).map byteLen).sum :=
  claim_C3 ["\x7b\"type\":\"A\"\x7d", "nope", "\x7b\"x\":0,\"type\":\"A\"\x7d"] "A" ⟨30, 2⟩
    (by rfl)

/-- C4: a line whose content fails to decode is recorded as exactly one
`ExcludedLine` carrying its 0-based index and the error description; the
pass does not halt (a file whose reads all succeed produces an `Ok` table,
decode failures notwithstanding) and every line still lands in one of the
two outcomes. -/
theorem claim_C4 (lines : List String) (i : Nat) (h : i < lines.length) (e : String)
    (hf : fromStr lines[i] = Except.error e) :
    (TypeTable.fromLines lines).lines_excluded.countP (fun r => r.index == i) = 1 ∧
    (⟨i, e⟩ : ExcludedLine) ∈ (TypeTable.fromLines lines).lines_excluded ∧
    TypeTable.fromFile (Except.ok (lines.map Except.ok)) =
      Except.ok (TypeTable.fromLines lines) ∧
    instSum (TypeTable.fromLines lines).types +
      (TypeTable.fromLines lines).lines_excluded.length = lines.length := by
  have hexcl : (TypeTable.fromLines lines).lines_excluded = excludedSpec 0 lines := by
    rw [TypeTable.fromLines, processLines_lines_excluded]
    simp [TypeTable.default]
  have hok : okDecode lines[i] = false := by simp [okDecode, hf]
  refine ⟨?_, ?_, ?_, ?_⟩
  · rw [hexcl]
    have hcnt := excludedSpec_countP_index lines 0 i h
    rw [Nat.zero_add] at hcnt
    rw [hcnt, hok]
    simp
  · rw [hexcl]
    have hmem := excludedSpec_mem lines 0 i h e hf
    rwa [Nat.zero_add] at hmem
  · rw [TypeTable.fromFile, TypeTable.fromLines]
    exact processReads_map_ok lines 0 TypeTable.default
  · rw [hexcl, excludedSpec_length, TypeTable.fromLines, instSum_processLines]
    have hlen : lines.length = lines.countP okDecode + lines.countP (fun l => !okDecode l) := by
      have := List.length_eq_countP_add_countP okDecode lines
      simpa using this
    simp [TypeTable.default, instSum]
    omega

/-- Witness for C4: the single non-JSON line of a one-line file is excluded
exactly once under index 0. -/
theorem claim_C4_wit :
    (TypeTable.fromLines ["nope"]).lines_excluded.countP (fun r => r.index == 0) = 1 :=
  (claim_C4 ["nope"] 0 (by decide) "expected value" (by rfl)).1

/-- C5: the exclusion records appear in strictly increasing `line_index`
order, matching the order of the lines in the input. -/
theorem claim_C5 (lines : List String) :
    ((TypeTable.fromLines lines).lines_excluded.map (fun r => r.index)).Pairwise (· < ·) := by
  have hexcl : (TypeTable.fromLines lines).lines_excluded = excludedSpec 0 lines := by
    rw [TypeTable.fromLines, processLines_lines_excluded]
    simp [TypeTable.default]
  rw [hexcl]
  exact List.pairwise_map.mpr (excludedSpec_pairwise lines 0)

/-- C6: an open failure propagates out of `TypeTable::from_file` as an
error, a read failure anywhere in the stream makes it return an error, and
when it errors `main` prints exactly one message naming the path and the
cause and renders no table. -/
theorem claim_C6 (arg0 path e : String) (argv : List String)
    (fs : String → Except String (List (Except String String))) (el : Nat)
    (reads : List (Except String String)) :
    TypeTable.fromFile (Except.error e) = Except.error e ∧
    (Except.error e ∈ reads →
      ∃ e2, TypeTable.fromFile (Except.ok reads) = Except.error e2) ∧
    (argv.head? = some path → TypeTable.fromFile (fs path) = Except.error e →
      mainRun arg0 argv fs el = [OutEvent.println (errorReadingMsg path e)] ∧
      ∀ tt, OutEvent.renderTable tt ∉ mainRun arg0 argv fs el) := by
  refine ⟨rfl, ?_, ?_⟩
  · intro hmem
    exact processReads_error_of_mem reads e 0 TypeTable.default hmem
  · intro h1 h2
    constructor
    · simp [mainRun, h1, h2]
    · intro tt hmem
      simp [mainRun, h1, h2] at hmem

/-- Witness for C6: with a file system in which every open fails, `main`
prints exactly the error message naming the path and the cause. -/
theorem claim_C6_wit :
    mainRun "logalizer" ["in.log"] (fun _ => Except.error "boom") 5 =
      [OutEvent.println (errorReadingMsg "in.log" "boom")] :=
  ((claim_C6 "logalizer" "in.log" "boom" ["in.log"] (fun _ => Except.error "boom") 5
      []).2.2 (by rfl) (by rfl)).1

/-- C7: with no input argument, `main` prints exactly the usage message
built from the program's own name, behaves identically for every file
system (so no file is opened or processed), renders no table and prints no
file error message. -/
theorem claim_C7 (arg0 : String) (argv : List String)
    (fs fs' : String → Except String (List (Except String String))) (el el' : Nat)
    (h : argv = []) :
    mainRun arg0 argv fs el = [OutEvent.println (usageMsg (exeName arg0))] ∧
    mainRun arg0 argv fs el = mainRun arg0 argv fs' el' ∧
    (∀ tt, OutEvent.renderTable tt ∉ mainRun arg0 argv fs el) ∧
    (∀ path e, OutEvent.println (errorReadingMsg path e) ∉ mainRun arg0 argv fs el) := by
  subst h
  refine ⟨rfl, rfl, ?_, ?_⟩
  · intro tt hmem
    simp [mainRun] at hmem
  · intro path e hmem
    simp [mainRun] at hmem
    have hE : (errorReadingMsg path e).data.head? = some 'E' := by
      rw [errorReadingMsg, String.data_append, String.data_append, String.data_append,
        show "Error reading file ".data = 'E' :: "rror reading file ".data from rfl]
      simp
    have hN : (usageMsg (exeName arg0)).data.head? = some 'N' := by
      rw [usageMsg, String.data_append, String.data_append,
        show "No input provided as an argument. Expected usage is: \"".data =
          'N' :: "o input provided as an argument. Expected usage is: \"".data from rfl]
      simp
    rw [hmem, hN] at hE
    simp at hE

/-- C8: the pass is deterministic: two runs over equal line sequences give
the same table, key for key, and the same ordered exclusion list. -/
theorem claim_C8 (lines1 lines2 : List String) (h : lines1 = lines2) :
    TypeTable.fromLines lines1 = TypeTable.fromLines lines2 ∧
    (∀ k, List.lookup k (TypeTable.fromLines lines1).types =
        List.lookup k (TypeTable.fromLines lines2).types) ∧
    (TypeTable.fromLines lines1).lines_excluded =
      (TypeTable.fromLines lines2).lines_excluded := by
  subst h
  exact ⟨rfl, fun _ => rfl, rfl⟩

/-- Witness for C8: two runs over the same concrete one-line file agree. -/
theorem claim_C8_wit :
    TypeTable.fromLines ["\x7b\"type\":\"A\"\x7d", "nope"] =
      TypeTable.fromLines ["\x7b\"type\":\"A\"\x7d", "nope"] :=
  (claim_C8 ["\x7b\"type\":\"A\"\x7d", "nope"] ["\x7b\"type\":\"A\"\x7d", "nope"] rfl).1

/-- C9: a line whose content is a valid JSON object with a (unique)
string-valued field `type` is classified under exactly that string value,
whatever other fields surround it, the empty string included. -/
theorem claim_C9 (s t : String) (pre post : List (String × Json))
    (hp : parseJson s = Except.ok (Json.obj (pre ++ ("type", Json.str t) :: post)))
    (hpre : ∀ kv ∈ pre, kv.1 ≠ "type") (hpost : ∀ kv ∈ post, kv.1 ≠ "type") :
    fromStr s = Except.ok ⟨t⟩ ∧
    List.lookup t (TypeTable.fromLines [s]).types = some ⟨byteLen s, 1⟩ := by
  have hfs : fromStr s = Except.ok ⟨t⟩ := by
    unfold fromStr
    rw [hp]
    simp only []
    rw [findLogType_append pre post t hpre hpost]
  refine ⟨hfs, ?_⟩
  simp [TypeTable.fromLines, processLines, processLine, hfs, insertOrUpdate,
    TypeTable.default, List.lookup]

/-- Witness for C9: a concrete object with extra fields before and after an
empty-string `type` field decodes to the empty type key. -/
theorem claim_C9_wit :
    fromStr "\x7b\"a\":[1,true,null],\"type\":\"\",\"z\":\"w\"\x7d" = Except.ok ⟨""⟩ :=
  (claim_C9 "\x7b\"a\":[1,true,null],\"type\":\"\",\"z\":\"w\"\x7d" ""
    [("a", Json.arr [Json.num "1", Json.bool true, Json.null])] [("z", Json.str "w")]
    (by rfl) (by decide) (by decide)).1

/-- C10: the line handed to the classifier is the raw segment with its
terminator stripped (the `'\n'`, and a `'\r'` immediately before it), the
byte count of that stripped line plus the terminator bytes reassembles the
raw segment's byte count, and the byte size billed to a classified line's
type is exactly the stripped line's byte count — terminators are never
billed. -/
theorem claim_C10 (line rest : List Char) (h : '\n' ∉ line) :
    fileLines (line ++ '\n' :: rest) = stripCR line :: fileLines rest ∧
    utf8Len (stripCR line) + (if line.getLast? = some '\r' then 1 else 0) + 1 =
      utf8Len (line ++ ['\n']) ∧
    (∀ log, fromStr ⟨stripCR line⟩ = Except.ok log →
      List.lookup log.log_type (TypeTable.fromFileContents ⟨line ++ ['\n']⟩).types =
        some ⟨utf8Len (stripCR line), 1⟩) := by
  have h1 : fileLines (line ++ '\n' :: rest) = stripCR line :: fileLines rest := by
    rw [fileLines, fileLinesGo_append line rest [] h]
    simp [fileLines]
  refine ⟨h1, ?_, ?_⟩
  · have h2 := utf8Len_stripCR line
    have h3 : utf8Len (line ++ ['\n']) = utf8Len line + 1 := by
      simp [utf8Len]
      decide
    omega
  · intro log hlog
    have hfl : fileLines (line ++ ['\n']) = [stripCR line] := by
      rw [show (line ++ ['\n']) = line ++ '\n' :: [] from rfl]
      rw [fileLines, fileLinesGo_append line [] [] h]
      simp [fileLines, fileLinesGo]
    rw [TypeTable.fromFileContents]
    have hdata : (⟨line ++ ['\n']⟩ : String).data = line ++ ['\n'] := rfl
    rw [hdata, hfl]
    simp [TypeTable.fromLines, processLines, processLine, hlog, insertOrUpdate,
      TypeTable.default, List.lookup, byteLen]

/-- Witness for C10: a one-line CRLF file bills the type `A` with the byte
count of the line content alone, both terminator bytes excluded. -/
theorem claim_C10_wit :
    List.lookup "A"
        (TypeTable.fromFileContents ⟨"\x7b\"type\":\"A\"\x7d\r".data ++ ['\n']⟩).types =
      some ⟨utf8Len (stripCR "\x7b\"type\":\"A\"\x7d\r".data), 1⟩ :=
  (claim_C10 "\x7b\"type\":\"A\"\x7d\r".data [] (by decide)).2.2 ⟨"A"⟩ (by rfl)

/-- Witness for C7: invoked as `/usr/bin/logalizer` with no argument, the
program prints exactly the usage message built from the executable name. -/
theorem claim_C7_wit :
    mainRun "/usr/bin/logalizer" [] (fun _ => Except.error "unused") 7 =
      [OutEvent.println (usageMsg (exeName "/usr/bin/logalizer"))] :=
  (claim_C7 "/usr/bin/logalizer" [] (fun _ => Except.error "unused")
    (fun _ => Except.ok []) 7 8 rfl).1
